import Mathlib

/-!
Verification development for the editable rich-text engine core
(`packages/core/src/index.ts`): a shallow embedding of the `Editor`
coordinator class — its plugin registry, update / composition-update
subscription maps, composition buffer handling and event handlers —
together with theorems settling the specified behaviour.

Conventions of the embedding:
* JavaScript `Map` objects are modelled by `JMap`, an association list
  with `Map`-faithful `get` / `set` / `delete` / iteration-order semantics.
* Text buffers are `List Char` (one entry per character, matching the
  single-code-unit strings exercised here).
* Callbacks and render functions are opaque: they are identified by a
  `Nat` id, and an invocation of a callback is recorded as an event in a
  trace rather than executed.
* External collaborator packages (`@editablejs/model`, `…/selection`,
  the Change pipeline) are not under `src/`; the pieces the Editor calls
  are modelled from the spec, each marked `Modelled from the spec:`.
-/

namespace Editable

/-- A node key, an opaque string identifier. -/
abbrev Key := String

/-! ## JavaScript `Map` model -/

/-- Association-list model of a JavaScript `Map`: entries are kept in
insertion order, `set` on an existing key updates the value in place. -/
structure JMap (α β : Type) where
  entries : List (α × β)
deriving Repr

/-- Lookup of the first entry with the given key. -/
def lookupEntries {α β : Type} [DecidableEq α] : List (α × β) → α → Option β
  | [], _ => none
  | (k', v) :: t, k => if k' = k then some v else lookupEntries t k

/-- JavaScript `Map.prototype.set`: replace the value of an existing key in
place (keeping its insertion position), otherwise append a new entry. -/
def setEntries {α β : Type} [DecidableEq α] : List (α × β) → α → β → List (α × β)
  | [], k, v => [(k, v)]
  | (k', v') :: t, k, v => if k' = k then (k, v) :: t else (k', v') :: setEntries t k v

/-- JavaScript `Map.prototype.delete`: remove the entry with the given key
(a `Map` holds at most one entry per key; we remove the first). -/
def delEntries {α β : Type} [DecidableEq α] : List (α × β) → α → List (α × β)
  | [], _ => []
  | (k', v') :: t, k => if k' = k then t else (k', v') :: delEntries t k

/-- The empty map. -/
def JMap.empty {α β : Type} : JMap α β := ⟨[]⟩

/-- `Map.prototype.get`. -/
def JMap.get {α β : Type} [DecidableEq α] (m : JMap α β) (k : α) : Option β :=
  lookupEntries m.entries k

/-- `Map.prototype.set`. -/
def JMap.set {α β : Type} [DecidableEq α] (m : JMap α β) (k : α) (v : β) : JMap α β :=
  ⟨setEntries m.entries k v⟩

/-- `Map.prototype.delete`. -/
def JMap.delete {α β : Type} [DecidableEq α] (m : JMap α β) (k : α) : JMap α β :=
  ⟨delEntries m.entries k⟩

/-- Number of entries carrying the key `k`. -/
def JMap.countKey {α β : Type} [DecidableEq α] (m : JMap α β) (k : α) : Nat :=
  m.entries.countP (fun p => decide (p.1 = k))

/-- The structural invariant every JavaScript `Map` enjoys: one entry per key. -/
def JMap.NodupKeys {α β : Type} (m : JMap α β) : Prop :=
  (m.entries.map Prod.fst).Nodup

theorem lookupEntries_setEntries_self {α β : Type} [DecidableEq α]
    (l : List (α × β)) (k : α) (v : β) :
    lookupEntries (setEntries l k v) k = some v := by
  induction l with
  | nil => simp [setEntries, lookupEntries]
  | cons hd t ih =>
    obtain ⟨k', v'⟩ := hd
    by_cases h : k' = k <;> simp [setEntries, lookupEntries, h, ih]

@[simp] theorem JMap.get_set_self {α β : Type} [DecidableEq α]
    (m : JMap α β) (k : α) (v : β) : (m.set k v).get k = some v :=
  lookupEntries_setEntries_self m.entries k v

theorem lookupEntries_eq_none_of_not_mem {α β : Type} [DecidableEq α]
    (l : List (α × β)) (k : α) (h : k ∉ l.map Prod.fst) :
    lookupEntries l k = none := by
  induction l with
  | nil => simp [lookupEntries]
  | cons hd t ih =>
    obtain ⟨k', v'⟩ := hd
    simp only [List.map_cons, List.mem_cons] at h
    push_neg at h
    simp [lookupEntries, Ne.symm h.1, ih h.2]

theorem lookupEntries_delEntries_self {α β : Type} [DecidableEq α]
    (l : List (α × β)) (k : α) (h : (l.map Prod.fst).Nodup) :
    lookupEntries (delEntries l k) k = none := by
  induction l with
  | nil => simp [delEntries, lookupEntries]
  | cons hd t ih =>
    obtain ⟨k', v'⟩ := hd
    simp only [List.map_cons, List.nodup_cons] at h
    by_cases hk : k' = k
    · subst hk
      simpa [delEntries] using lookupEntries_eq_none_of_not_mem t k' h.1
    · simp [delEntries, hk, lookupEntries, ih h.2]

theorem JMap.get_delete_self {α β : Type} [DecidableEq α]
    (m : JMap α β) (k : α) (h : m.NodupKeys) : (m.delete k).get k = none :=
  lookupEntries_delEntries_self m.entries k h

theorem keys_setEntries_eq {α β : Type} [DecidableEq α]
    (l : List (α × β)) (k : α) (v : β) :
    (setEntries l k v).map Prod.fst =
      if k ∈ l.map Prod.fst then l.map Prod.fst else l.map Prod.fst ++ [k] := by
  induction l with
  | nil => simp [setEntries]
  | cons hd t ih =>
    obtain ⟨k', v'⟩ := hd
    by_cases hk : k' = k
    · subst hk
      simp [setEntries]
    · by_cases hmem : k ∈ t.map Prod.fst
      · simp [setEntries, hk, ih, hmem, Ne.symm hk]
      · simp [setEntries, hk, ih, hmem, Ne.symm hk]

theorem keys_setEntries {α β : Type} [DecidableEq α]
    (l : List (α × β)) (k : α) (v : β) (h : (l.map Prod.fst).Nodup) :
    ((setEntries l k v).map Prod.fst).Nodup := by
  rw [keys_setEntries_eq]
  by_cases hmem : k ∈ l.map Prod.fst
  · simpa [hmem] using h
  · simp only [hmem, if_false]
    simp only [List.Nodup, List.pairwise_append, h, hmem]
    refine ⟨h, List.pairwise_singleton _ _, ?_⟩
    intro a ha b hb
    rw [List.mem_singleton] at hb
    subst hb
    intro hak
    exact hmem (hak ▸ ha)

theorem JMap.nodupKeys_set {α β : Type} [DecidableEq α]
    (m : JMap α β) (k : α) (v : β) (h : m.NodupKeys) : (m.set k v).NodupKeys :=
  keys_setEntries m.entries k v h

theorem countKey_entries_eq_count {α β : Type} [DecidableEq α]
    (l : List (α × β)) (k : α) :
    l.countP (fun p => decide (p.1 = k)) = (l.map Prod.fst).count k := by
  induction l with
  | nil => simp
  | cons hd t ih =>
    obtain ⟨k', v'⟩ := hd
    rw [List.countP_cons]
    by_cases hk : k' = k
    · subst hk
      simp [List.count_cons, ih]
    · simp [List.count_cons, hk, Ne.symm hk, ih]

theorem countKey_setEntries_self {α β : Type} [DecidableEq α]
    (l : List (α × β)) (k : α) (v : β) (h : (l.map Prod.fst).Nodup) :
    (setEntries l k v).countP (fun p => decide (p.1 = k)) = 1 := by
  rw [countKey_entries_eq_count, keys_setEntries_eq]
  by_cases hmem : k ∈ l.map Prod.fst
  · simp only [hmem, if_true]
    exact List.count_eq_one_of_mem h hmem
  · simp [hmem, List.count_eq_zero_of_not_mem hmem]

theorem JMap.countKey_set_self {α β : Type} [DecidableEq α]
    (m : JMap α β) (k : α) (v : β) (h : m.NodupKeys) :
    (m.set k v).countKey k = 1 :=
  countKey_setEntries_self m.entries k v h

/-! ## Node model data -/

/-- Modelled from the spec: a Node (`@editablejs/model`, not under `src/`) is
polymorphic over Element (container with type tag and ordered children) and
Text (leaf owning a character buffer); every Node carries a Key. -/
inductive Node where
  | element (key : Key) (nodeType : String) (children : List Node)
  | text (key : Key) (content : List Char)
deriving Repr

/-- `node.getKey()`. -/
def Node.getKey : Node → Key
  | .element k _ _ => k
  | .text k _ => k

/-- Modelled from the spec: `node.getType()` — an Element's type tag; a Text
node's tag is the sentinel tag of the Text variant. -/
def Node.getType : Node → String
  | .element _ ty _ => ty
  | .text _ _ => "text"

/-- `Element.isElement(node)`. -/
def Node.isElement : Node → Bool
  | .element _ _ _ => true
  | .text _ _ => false

/-- An Operation record, as far as the Editor inspects it: `op.key` names the
node the Operation targets, `opId` distinguishes distinct Operations. -/
structure Op where
  key : Key
  opId : Nat
deriving DecidableEq, Repr

/-! ## Editor data -/

/-- A plugin registry entry; the `render` function is opaque and identified
by a numeric id (spec §6: a capability object exposing a render operation). -/
structure PluginOptions where
  render : Nat
deriving DecidableEq, Repr

/-- The argument accepted by `registerPlugin`: either a bare render function
or an options object. -/
inductive PluginArg where
  | fn (render : Nat)
  | opts (options : PluginOptions)
deriving DecidableEq, Repr

/-- The error raised when rendering hits a type tag with no registry entry. -/
inductive RenderError where
  | pluginNotFound (nodeType : String)
deriving DecidableEq, Repr

/-- One segment of the composition segmentation (`{ type, text }`). -/
structure Chunk where
  type : String
  text : List Char
deriving DecidableEq, Repr

/-- The `CompositionUpdateParams` payload `{ chars, text, offset }`. -/
structure Params where
  chars : List Chunk
  text : List Char
  offset : Nat
deriving DecidableEq, Repr

/-- The `_compositionInfo` record `{ key, text }`. -/
structure CompInfo where
  key : Key
  text : List Char
deriving DecidableEq, Repr

/-- An anchor position (Key, offset), the part of `change.getRange()` the
Editor reads. -/
structure SRange where
  key : Key
  offset : Nat
deriving DecidableEq, Repr

/-- Observable events emitted while an Editor method runs: callback
invocations, Change-pipeline calls, and the composition-state writes of the
composition-end handler, in source order. -/
inductive Ev where
  | notifyUpdate (cb : Nat) (node : Node) (ops : List Op)
  | notifyComposition (cb : Nat) (payload : Option Params)
  | registerComposition (key : Key) (cb : Nat)
  | insertText (text : List Char)
  | deleteContents
  | setComposition (b : Bool)
  | clearCompositionInfo
  | compositionRetrigger (key : Key) (text : List Char)
  | modelDestroy
  | selectionDestroy
deriving Repr

/-- The state of one `Editor` instance: its own fields from the source class,
plus the collaborator state it reads (Modelled from the spec: the Node
Model's Key→Node index, the Selection's collapsed flag, and the Change
pipeline's pending-formatting flag and range). -/
structure EditorState where
  pluginMap : JMap String PluginOptions
  updateMap : JMap Key Nat
  compositionUpdateMap : JMap Key Nat
  isComposition : Bool
  compositionInfo : Option CompInfo
  cacheCompositionUpdate : JMap Key Params
  model : JMap Key Node
  isCollapsed : Bool
  hasCacheFormatting : Bool
  range : Option SRange
deriving Repr

/-! ## Editor operations (from `src/packages/core/src/index.ts`) -/

namespace Editor

/-- The normalization both `registerPlugin` overloads perform:
`if (typeof options === 'function') options = { render: options }`. -/
def normalizeArg : PluginArg → PluginOptions
  | .fn f => { render := f }
  | .opts o => o

/-- `static registerPlugin(type, options)`: write the (normalized) options
into a plugin registry. -/
def registerPluginStatic (reg : JMap String PluginOptions) (type : String)
    (options : PluginArg) : JMap String PluginOptions :=
  reg.set type (normalizeArg options)

/-- Instance `registerPlugin(name, options)`: write the (normalized) options
into this editor's `pluginMap`. -/
def registerPlugin (st : EditorState) (name : String) (options : PluginArg) :
    EditorState :=
  { st with pluginMap := st.pluginMap.set name (normalizeArg options) }

/-- The constructor's plugin selection over the global registry `_pluginMap`:
with `enabledPlugins` it registers each listed name found globally; otherwise
it iterates the global registry and registers a plugin when
`!disabledPlugins || disabledPlugins.includes(name)`. -/
def constructorPluginMap (global : JMap String PluginOptions)
    (enabledPlugins disabledPlugins : Option (List String)) :
    JMap String PluginOptions :=
  match enabledPlugins with
  | some names =>
    names.foldl
      (fun m name =>
        match global.get name with
        | some pluginOptions => m.set name pluginOptions
        | none => m)
      JMap.empty
  | none =>
    global.entries.foldl
      (fun m p =>
        if disabledPlugins.isNone || (disabledPlugins.getD []).contains p.1
        then m.set p.1 p.2 else m)
      JMap.empty

/-- `renderPlugin(node)`: look the node's type tag up in `pluginMap`. On a
miss the source calls `Log.pluginNotFound(type)` (from `@editablejs/utils`,
not under `src/`) and then unconditionally dereferences the absent entry
(`plugin.render`), so rendering aborts; the abort is modelled as
`Except.error`. On a hit the opaque render function is applied, modelled by
returning the registry entry together with the node's key. -/
def renderPlugin (pluginMap : JMap String PluginOptions) (node : Node) :
    Except RenderError (PluginOptions × Key) :=
  match pluginMap.get node.getType with
  | none => .error (.pluginNotFound node.getType)
  | some plugin => .ok (plugin, node.getKey)

/-- `onUpdate(key, callback)`. -/
def onUpdate (st : EditorState) (key : Key) (callback : Nat) : EditorState :=
  { st with updateMap := st.updateMap.set key callback }

/-- `offUpdate(key)`. -/
def offUpdate (st : EditorState) (key : Key) : EditorState :=
  { st with updateMap := st.updateMap.delete key }

/-- `onCompositionUpdate(key, callback)`: replay the cached segmentation to
the new callback if one is cached, then register the callback. The trace
records the replay and the registration in source order. -/
def onCompositionUpdate (st : EditorState) (key : Key) (callback : Nat) :
    EditorState × List Ev :=
  let replay : List Ev :=
    match st.cacheCompositionUpdate.get key with
    | some cache => [.notifyComposition callback (some cache)]
    | none => []
  ({ st with compositionUpdateMap := st.compositionUpdateMap.set key callback },
   replay ++ [.registerComposition key callback])

/-- `offCompositionUpdate(key)`. -/
def offCompositionUpdate (st : EditorState) (key : Key) : EditorState :=
  { st with
    cacheCompositionUpdate := st.cacheCompositionUpdate.delete key
    compositionUpdateMap := st.compositionUpdateMap.delete key }

/-- Modelled from the spec: `Change.insertText` (§4.3) at the collapsed
anchor — it clears pending formatting, splices the text into the anchor Text
node's buffer and advances the position by the text's length; the call is
recorded as an `insertText` event. (In the handlers below, a non-collapsed
selection is collapsed by `deleteContents` before `insertText` runs.) -/
def changeInsertText (st : EditorState) (s : List Char) : EditorState × List Ev :=
  let st1 := { st with hasCacheFormatting := false }
  match st1.range with
  | none => (st1, [.insertText s])
  | some r =>
    let model :=
      match st1.model.get r.key with
      | some (Node.text k content) =>
        st1.model.set r.key (Node.text k (content.take r.offset ++ s ++ content.drop r.offset))
      | _ => st1.model
    ({ st1 with model := model, range := some ⟨r.key, r.offset + s.length⟩ },
     [.insertText s])

/-- Modelled from the spec: `Change.deleteContents` (§4.3) at its interface —
it emits the delete Operations and collapses the Selection to the start; the
tree splice itself is not read by any Editor code under verification. -/
def changeDeleteContents (st : EditorState) : EditorState × List Ev :=
  ({ st with isCollapsed := true }, [.deleteContents])

/-- `emitCompositionUpdate(text)`: flush pending formatting with an empty
`insertText`, read the anchor from `change.getRange()`, record
`_compositionInfo`, compute the three-part (or two-part) segmentation of the
anchor Text node, and deliver it to the registered subscriber (removing any
cache entry) or cache it when no subscriber is registered. -/
def emitCompositionUpdate (st : EditorState) (text : List Char) :
    EditorState × List Ev :=
  let p := if st.hasCacheFormatting then changeInsertText st [] else (st, [])
  let st1 := p.1
  let tr1 := p.2
  match st1.range with
  | none => (st1, tr1)
  | some r =>
    let st2 := { st1 with compositionInfo := some ⟨r.key, text⟩ }
    match st2.model.get r.key with
    | some (Node.text _ nodeText) =>
      let chars : List Chunk :=
        { type := "text", text := nodeText.take r.offset } ::
        { type := "composition", text := text } ::
        (if r.offset < nodeText.length
         then [{ type := "text", text := nodeText.drop r.offset }] else [])
      let params : Params := { chars := chars, text := text, offset := r.offset }
      match st2.compositionUpdateMap.get r.key with
      | some cb =>
        ({ st2 with cacheCompositionUpdate := st2.cacheCompositionUpdate.delete r.key },
         tr1 ++ [.notifyComposition cb (some params)])
      | none =>
        ({ st2 with cacheCompositionUpdate := st2.cacheCompositionUpdate.set r.key params },
         tr1)
    | _ => (st2, tr1)

/-- The keyed-callback, wildcard-callback and composition-retrigger part of
`emitUpdate` run at one visited node (the recursive `emitCompositionUpdate`
call is recorded as a `compositionRetrigger` event). -/
def emitUpdateOwn (um : JMap Key Nat) (ci : Option CompInfo) (node : Node)
    (ops : List Op) : List Ev :=
  let t1 : List Ev :=
    match um.get node.getKey with
    | some cb => [.notifyUpdate cb node ops]
    | none => []
  let t2 : List Ev :=
    match um.get "*" with
    | some cb => [.notifyUpdate cb node ops]
    | none => []
  let t3 : List Ev :=
    match ci with
    | some info => if info.key = node.getKey then [.compositionRetrigger node.getKey info.text] else []
    | none => []
  t1 ++ t2 ++ t3

mutual

/-- `emitUpdate(node, ops)`: for an Element, first recurse into every child
with the ops filtered by that child's key, then run the node's own callbacks
(keyed, then wildcard, then the composition retrigger). -/
def emitUpdate (um : JMap Key Nat) (ci : Option CompInfo) : Node → List Op → List Ev
  | Node.element k ty children, ops =>
    emitUpdateList um ci children ops ++
      emitUpdateOwn um ci (Node.element k ty children) ops
  | Node.text k s, ops => emitUpdateOwn um ci (Node.text k s) ops

/-- The `children.forEach` loop of `emitUpdate`. -/
def emitUpdateList (um : JMap Key Nat) (ci : Option CompInfo) :
    List Node → List Op → List Ev
  | [], _ => []
  | c :: rest, ops =>
    emitUpdate um ci c (ops.filter (fun op => op.key == c.getKey)) ++
      emitUpdateList um ci rest ops

end

/-- The `EVENT_VALUE_CHANGE` handler: delete a non-collapsed selection, then
route the value either to `emitCompositionUpdate` (during composition) or to
`change.insertText`. -/
def valueChangeHandler (st : EditorState) (value : List Char) :
    EditorState × List Ev :=
  let p := if st.isCollapsed then (st, ([] : List Ev)) else changeDeleteContents st
  if p.1.isComposition then
    let q := emitCompositionUpdate p.1 value
    (q.1, p.2 ++ q.2)
  else
    let q := changeInsertText p.1 value
    (q.1, p.2 ++ q.2)

/-- The `EVENT_COMPOSITION_START` handler: `this._isComposition = true`. -/
def compositionStartHandler (st : EditorState) : EditorState :=
  { st with isComposition := true }

/-- The `EVENT_COMPOSITION_END` handler: clear `_isComposition`, notify the
subscriber for the composing key (if both exist) with a null payload, clear
`_compositionInfo`, then `change.insertText(ev.data)`. The trace records the
two state writes and the calls in source order. -/
def compositionEndHandler (st : EditorState) (data : List Char) :
    EditorState × List Ev :=
  let st1 := { st with isComposition := false }
  let tr2 : List Ev :=
    match st1.compositionInfo with
    | some info =>
      match st1.compositionUpdateMap.get info.key with
      | some cb => [.notifyComposition cb none]
      | none => []
    | none => []
  let st2 := { st1 with compositionInfo := none }
  let q := changeInsertText st2 data
  (q.1, Ev.setComposition false :: tr2 ++ [Ev.clearCompositionInfo] ++ q.2)

/-- `destroy()`: clear `updateMap` and `pluginMap`, then delegate teardown to
`model.destroy()` and `selection.destroy()` (recorded as events). Nothing
else is touched. -/
def destroy (st : EditorState) : EditorState × List Ev :=
  ({ st with updateMap := JMap.empty, pluginMap := JMap.empty },
   [.modelDestroy, .selectionDestroy])

end Editor

/-! ## Trace discriminators -/

/-- Recognizes a composition notification with an absent (null) payload. -/
def Ev.isNullCompositionNotify : Ev → Bool
  | .notifyComposition _ none => true
  | _ => false

/-- Recognizes any `change.insertText` call. -/
def Ev.isInsertText : Ev → Bool
  | .insertText _ => true
  | _ => false

/-- Recognizes the `_isComposition = false` write. -/
def Ev.isSetCompositionFalse : Ev → Bool
  | .setComposition false => true
  | _ => false

/-- An update-callback invocation whose delivered Operations all target the
delivered node (the well-filtered form the spec describes). -/
def Ev.updateOpsMatchNode : Ev → Bool
  | .notifyUpdate _ node ops => ops.all (fun op => op.key == node.getKey)
  | _ => true

/-! ## Concrete sample data -/

/-- A Text node `"cafe"` under key `t1`. -/
def sampleTextNode : Node := Node.text "t1" ['c', 'a', 'f', 'e']

/-- A baseline editor state: empty subscription maps, a collapsed selection
anchored in `sampleTextNode` at offset 3, no composition in flight. -/
def sampleState : EditorState :=
  { pluginMap := JMap.empty
    updateMap := JMap.empty
    compositionUpdateMap := JMap.empty
    isComposition := false
    compositionInfo := none
    cacheCompositionUpdate := JMap.empty
    model := JMap.empty.set "t1" sampleTextNode
    isCollapsed := true
    hasCacheFormatting := false
    range := some ⟨"t1", 3⟩ }

/-- An element node whose type tag has no plugin registered anywhere. -/
def nodeNoPlugin : Node := Node.element "k1" "divider" []

/-! ## C1 — renderPlugin on an unregistered type -/

/-- Claim C1, as stated, is false: rendering a node whose type tag has no
entry in the plugin map does not return an (empty) render result — the
source dereferences the absent registry entry right after the diagnostic, so
`renderPlugin` aborts. Concretely, with an empty plugin map and a `divider`
element, no `Except.ok` result is produced. -/
theorem c1_counterexample :
    ¬ ∃ r, Editor.renderPlugin JMap.empty nodeNoPlugin = Except.ok r := by
  intro ⟨r, h⟩
  simp [Editor.renderPlugin, JMap.empty, JMap.get, lookupEntries, nodeNoPlugin,
    Node.getType] at h

/-- Claim C1 (amended): for every node whose type tag has no entry in the
editor's plugin map, `renderPlugin` reports the plugin-not-found diagnostic
and aborts rendering with that error (it throws); it does not return a
render result. -/
theorem c1_amended (pm : JMap String PluginOptions) (node : Node)
    (h : pm.get node.getType = none) :
    Editor.renderPlugin pm node = .error (.pluginNotFound node.getType) := by
  simp [Editor.renderPlugin, h]

/-- Witness for `c1_amended` at the empty plugin map and a `divider` node. -/
theorem c1_amended_witness :
    (JMap.empty : JMap String PluginOptions).get nodeNoPlugin.getType = none ∧
    Editor.renderPlugin JMap.empty nodeNoPlugin =
      .error (.pluginNotFound "divider") :=
  ⟨rfl, c1_amended JMap.empty nodeNoPlugin rfl⟩

/-! ## C2 — destroy and callback registrations -/

/-- An editor state with a composition-update subscriber (id 7) registered
for key `k` and a composition in flight on `k`. -/
def stC2 : EditorState :=
  { sampleState with
    compositionUpdateMap := JMap.empty.set "k" 7
    isComposition := true
    compositionInfo := some ⟨"k", ['x']⟩
    range := none }

/-- Claim C2 is a code bug: `destroy()` clears `updateMap` and `pluginMap`
but not `compositionUpdateMap`, so a callback registered through
`onCompositionUpdate` before `destroy` stays registered and is still invoked
(with a null payload) by a composition-end signal arriving afterwards —
contradicting the spec's requirement that no dangling callback registrations
survive `destroy`. -/
theorem c2_code_bug :
    (Editor.destroy stC2).1.compositionUpdateMap.get "k" = some 7 ∧
    ((Editor.compositionEndHandler (Editor.destroy stC2).1 ['y']).2.any
      Ev.isNullCompositionNotify) = true ∧
    (Editor.destroy stC2).1.updateMap.get "k" = none := by
  refine ⟨rfl, ?_, rfl⟩
  rfl

/-! ## C3 — constructor plugin selection -/

/-- A global registry holding plugins `a` and `b`. -/
def globalRegistryC3 : JMap String PluginOptions :=
  (JMap.empty.set "a" ⟨1⟩).set "b" ⟨2⟩

/-- Claim C3 is a code bug: constructing with `disabledPlugins = ["a"]` (and
no `enabledPlugins`) yields a per-instance plugin map containing exactly the
plugins named in `disabledPlugins` — the filter
`!disabledPlugins || disabledPlugins.includes(name)` registers a plugin when
its name IS in the disabled list — whereas the claim (and the parameter's
name) requires exactly the plugins NOT in it. With registry `[a, b]` the code
keeps `a` and drops `b`. -/
theorem c3_code_bug :
    (Editor.constructorPluginMap globalRegistryC3 none (some ["a"])).entries =
      [("a", ⟨1⟩)] ∧
    (Editor.constructorPluginMap globalRegistryC3 none (some ["a"])).get "a" =
      some ⟨1⟩ ∧
    (Editor.constructorPluginMap globalRegistryC3 none (some ["a"])).get "b" =
      none :=
  ⟨rfl, rfl, rfl⟩

/-! ## C10 — the two registerPlugin call forms -/

/-- Claim C10: registering a bare render function `f` (statically or on an
instance) produces exactly the same registry entry as registering
`{ render: f }`, and `renderPlugin` behaves identically afterwards. -/
theorem c10_register_forms_interchangeable :
    ∀ (reg : JMap String PluginOptions) (type : String) (f : Nat)
      (st : EditorState) (node : Node),
      Editor.registerPluginStatic reg type (.fn f) =
        Editor.registerPluginStatic reg type (.opts { render := f }) ∧
      Editor.registerPlugin st type (.fn f) =
        Editor.registerPlugin st type (.opts { render := f }) ∧
      Editor.renderPlugin (Editor.registerPlugin st type (.fn f)).pluginMap node =
        Editor.renderPlugin
          (Editor.registerPlugin st type (.opts { render := f })).pluginMap node := by
  intro reg type f st node
  exact ⟨rfl, rfl, rfl⟩

/-! ## Helper lemmas about the Change-pipeline model -/

@[simp] theorem changeInsertText_trace (st : EditorState) (s : List Char) :
    (Editor.changeInsertText st s).2 = [Ev.insertText s] := by
  unfold Editor.changeInsertText
  cases h : st.range <;> simp [h]

@[simp] theorem changeInsertText_isComposition (st : EditorState) (s : List Char) :
    (Editor.changeInsertText st s).1.isComposition = st.isComposition := by
  unfold Editor.changeInsertText
  cases h : st.range <;> simp [h]

@[simp] theorem changeInsertText_compositionInfo (st : EditorState) (s : List Char) :
    (Editor.changeInsertText st s).1.compositionInfo = st.compositionInfo := by
  unfold Editor.changeInsertText
  cases h : st.range <;> simp [h]

@[simp] theorem changeInsertText_compositionUpdateMap (st : EditorState) (s : List Char) :
    (Editor.changeInsertText st s).1.compositionUpdateMap = st.compositionUpdateMap := by
  unfold Editor.changeInsertText
  cases h : st.range <;> simp [h]

@[simp] theorem changeInsertText_cacheCompositionUpdate (st : EditorState) (s : List Char) :
    (Editor.changeInsertText st s).1.cacheCompositionUpdate = st.cacheCompositionUpdate := by
  unfold Editor.changeInsertText
  cases h : st.range <;> simp [h]

/-! ## C5 — composition end -/

/-- An editor state composing on `t1` (composed text `"x"` so far) with a
composition subscriber (id 5) registered for `t1`. -/
def stC5 : EditorState :=
  { sampleState with
    isComposition := true
    compositionInfo := some ⟨"t1", ['x']⟩
    compositionUpdateMap := JMap.empty.set "t1" 5 }

/-- Claim C5, as stated, is false on the ordering: the composition-end
handler writes `_isComposition = false` BEFORE notifying the subscriber with
the absent payload, whereas the claim puts the notification first and the
clearing of the composition state (including `isComposition`) after it. In
the concrete run both events occur, and the `isComposition` clear does not
come after the notification. -/
theorem c5_counterexample :
    ((Editor.compositionEndHandler stC5 ['é']).2.any Ev.isNullCompositionNotify) = true ∧
    ((Editor.compositionEndHandler stC5 ['é']).2.any Ev.isSetCompositionFalse) = true ∧
    ¬ ((Editor.compositionEndHandler stC5 ['é']).2.findIdx Ev.isNullCompositionNotify <
        (Editor.compositionEndHandler stC5 ['é']).2.findIdx Ev.isSetCompositionFalse) := by
  refine ⟨rfl, rfl, ?_⟩
  decide

/-- Claim C5 (amended): on a composition-end signal with a composition
subscriber registered for the composing node's key, the handler first clears
`isComposition`, then notifies that subscriber with an absent (null) payload,
then clears the composing-info record, and then inserts the committed text
via the Change Pipeline's `insertText`, in that order; afterwards the buffer
is Idle (`isComposition` false, no composing-info record). -/
theorem c5_amended (st : EditorState) (data : List Char) (info : CompInfo) (cb : Nat)
    (hinfo : st.compositionInfo = some info)
    (hcb : st.compositionUpdateMap.get info.key = some cb) :
    (Editor.compositionEndHandler st data).2 =
      [Ev.setComposition false, Ev.notifyComposition cb none,
       Ev.clearCompositionInfo, Ev.insertText data] ∧
    (Editor.compositionEndHandler st data).1.isComposition = false ∧
    (Editor.compositionEndHandler st data).1.compositionInfo = none := by
  unfold Editor.compositionEndHandler
  simp [hinfo, hcb]

/-- Witness for `c5_amended` at the concrete composing state `stC5`. -/
theorem c5_amended_witness :
    stC5.compositionInfo = some ⟨"t1", ['x']⟩ ∧
    stC5.compositionUpdateMap.get "t1" = some 5 ∧
    (Editor.compositionEndHandler stC5 ['é']).2 =
      [Ev.setComposition false, Ev.notifyComposition 5 none,
       Ev.clearCompositionInfo, Ev.insertText ['é']] :=
  ⟨rfl, rfl, (c5_amended stC5 ['é'] ⟨"t1", ['x']⟩ 5 rfl rfl).1⟩

/-! ## emitCompositionUpdate lemmas -/

/-- The `insertText` calls inside `emitCompositionUpdate` are exactly the
pending-formatting flush: an empty insert when `hasCacheFormatting` is set,
nothing otherwise. -/
theorem emitCompositionUpdate_trace_insertTexts (st : EditorState) (v : List Char) :
    ((Editor.emitCompositionUpdate st v).2.filter Ev.isInsertText) =
      (if st.hasCacheFormatting then [Ev.insertText []] else []) := by
  unfold Editor.emitCompositionUpdate
  cases hF : st.hasCacheFormatting <;> simp [hF]
  all_goals try split
  all_goals try split
  all_goals try split
  all_goals simp [Ev.isInsertText]

/-- Every `insertText` call emitted during `emitCompositionUpdate` carries
the empty string (it is the pending-formatting flush, never the composed
text). -/
theorem emitCompositionUpdate_insertText_empty (st : EditorState) (v s : List Char)
    (hs : Ev.insertText s ∈ (Editor.emitCompositionUpdate st v).2) : s = [] := by
  have hmem : Ev.insertText s ∈ (Editor.emitCompositionUpdate st v).2.filter Ev.isInsertText := by
    rw [List.mem_filter]
    exact ⟨hs, rfl⟩
  rw [emitCompositionUpdate_trace_insertTexts] at hmem
  cases hF : st.hasCacheFormatting <;> rw [hF] at hmem <;> simp at hmem
  exact hmem

/-- When a range is present, `emitCompositionUpdate` records the composing
key and the composed text in `_compositionInfo`. -/
theorem emitCompositionUpdate_compositionInfo (st : EditorState) (v : List Char)
    (r : SRange) (hr : st.range = some r) :
    (Editor.emitCompositionUpdate st v).1.compositionInfo = some ⟨r.key, v⟩ := by
  unfold Editor.emitCompositionUpdate
  cases hF : st.hasCacheFormatting <;> simp [hF, Editor.changeInsertText, hr]
  all_goals try split
  all_goals try split
  all_goals try split
  all_goals simp

/-! ## C4 — composition segmentation -/

/-- An editor state over Text `"cafe"` at `t1`, anchor offset 3, with a
composition subscriber (id 5) registered for `t1`. -/
def stC4 : EditorState :=
  { sampleState with compositionUpdateMap := JMap.empty.set "t1" 5 }

/-- Claim C4's concrete example is false on the code: for content `"cafe"`
(length 4) at offset 3 with composed text `"é"`, the offset does NOT equal
the length, so the code emits a trailing text chunk — the delivered segments
are `[{text:"caf"}, {type:"composition", text:"é"}, {text:"e"}]`, not the
claimed two-segment list. -/
theorem c4_counterexample :
    (Editor.emitCompositionUpdate stC4 ['é']).2 =
      [Ev.notifyComposition 5 (some
        ⟨[{ type := "text", text := ['c', 'a', 'f'] },
          { type := "composition", text := ['é'] },
          { type := "text", text := ['e'] }], ['é'], 3⟩)] ∧
    ([{ type := "text", text := ['c', 'a', 'f'] },
      { type := "composition", text := ['é'] },
      { type := "text", text := ['e'] }] : List Chunk) ≠
      [{ type := "text", text := ['c', 'a', 'f'] },
       { type := "composition", text := ['é'] }] :=
  ⟨rfl, by decide⟩

/-- Claim C4 (amended): a composition update with composed text `t`,
arriving while the anchor sits in a Text node with content `s` at offset
`o ≤ |s|`, emits the segmentation `[prefix s[0..o) as a text chunk, t as a
composition chunk, suffix s[o..) as a text chunk]` with the suffix chunk
omitted exactly when `o = |s|` — delivered to the registered subscriber, or
cached when none is registered. (For the claim's example `s = "cafe"`,
`o = 3` the suffix chunk `{text:"e"}` is therefore present; the two-segment
result arises at `s = "caf"`, `o = 3`.) -/
theorem c4_composition_segmentation (st : EditorState) (t : List Char)
    (k k2 : Key) (o : Nat) (s : List Char)
    (hr : st.range = some ⟨k, o⟩)
    (hn : st.model.get k = some (.text k2 s))
    (ho : o ≤ s.length) :
    (∀ cb, st.compositionUpdateMap.get k = some cb →
      Ev.notifyComposition cb (some
        ⟨{ type := "text", text := s.take o } ::
          { type := "composition", text := t } ::
          (if o = s.length then [] else [{ type := "text", text := s.drop o }]),
         t, o⟩) ∈ (Editor.emitCompositionUpdate st t).2) ∧
    (st.compositionUpdateMap.get k = none →
      (Editor.emitCompositionUpdate st t).1.cacheCompositionUpdate.get k =
        some ⟨{ type := "text", text := s.take o } ::
              { type := "composition", text := t } ::
              (if o = s.length then [] else [{ type := "text", text := s.drop o }]),
              t, o⟩) := by
  have hseg :
      (if o < s.length then [({ type := "text", text := s.drop o } : Chunk)] else []) =
        (if o = s.length then [] else [{ type := "text", text := s.drop o }]) := by
    rcases Nat.eq_or_lt_of_le ho with he | hlt
    · simp [he]
    · simp [hlt, Nat.ne_of_lt hlt]
  cases hF : st.hasCacheFormatting
  · constructor
    · intro cb hcb
      simp [Editor.emitCompositionUpdate, hF, hr, hn, hcb, ← hseg]
    · intro hnone
      simp [Editor.emitCompositionUpdate, hF, hr, hn, hnone, ← hseg]
  · constructor
    · intro cb hcb
      simp [Editor.emitCompositionUpdate, Editor.changeInsertText, hF, hr, hn, hcb,
        ← hseg, List.take_append_drop]
    · intro hnone
      simp [Editor.emitCompositionUpdate, Editor.changeInsertText, hF, hr, hn, hnone,
        ← hseg, List.take_append_drop]

/-- An editor state over Text `"caf"` at `t1`, anchor offset 3 (the buffer
end), with a composition subscriber (id 5) registered for `t1`. -/
def stC4w : EditorState :=
  { sampleState with
    compositionUpdateMap := JMap.empty.set "t1" 5
    model := JMap.empty.set "t1" (Node.text "t1" ['c', 'a', 'f']) }

/-- Witness for `c4_composition_segmentation`: Text `"caf"` at key `t1`,
anchor offset 3 (= length), composed text `"é"` — the delivered segments
are `[{text:"caf"}, {type:"composition", text:"é"}]` with no trailing
segment. -/
theorem c4_composition_segmentation_witness :
    stC4w.range = some ⟨"t1", 3⟩ ∧
    (3 : Nat) ≤ ['c', 'a', 'f'].length ∧
    Ev.notifyComposition 5 (some
      ⟨[{ type := "text", text := ['c', 'a', 'f'] },
        { type := "composition", text := ['é'] }], ['é'], 3⟩) ∈
      (Editor.emitCompositionUpdate stC4w ['é']).2 := by
  refine ⟨rfl, by decide, ?_⟩
  have h := (c4_composition_segmentation stC4w ['é']
    "t1" "t1" 3 ['c', 'a', 'f'] rfl rfl (by decide)).1 5 rfl
  simpa using h

/-! ## C6 — no composed-text commit during composition -/

/-- An editor state composing on `t1` with pending formatting queued. -/
def stC6 : EditorState :=
  { sampleState with isComposition := true, hasCacheFormatting := true }

/-- Claim C6, as stated, is false: while a composition is active a
value-change signal CAN commit an insert-text Operation through the Change
Pipeline — when pending formatting is queued, `emitCompositionUpdate` first
flushes it with `change.insertText('')` (spec §4.5: "commits an empty
insertText"). Concretely, with `hasCacheFormatting` set the value-change
handler's trace contains an `insertText` call while composing. -/
theorem c6_counterexample :
    stC6.isComposition = true ∧
    ((Editor.valueChangeHandler stC6 ['x']).2.any Ev.isInsertText) = true :=
  ⟨rfl, rfl⟩

/-- Claim C6 (amended): while a composition is active, no value-change
signal commits the composed text through `insertText`: every `insertText`
the handler issues carries the empty string (the pending-formatting flush),
and the composed text is routed to the composition-update segmentation
instead, recorded as the composing text of the composition buffer. -/
theorem c6_amended (st : EditorState) (v : List Char)
    (h : st.isComposition = true) :
    (∀ s, Ev.insertText s ∈ (Editor.valueChangeHandler st v).2 → s = []) ∧
    (∀ r, st.range = some r →
      (Editor.valueChangeHandler st v).1.compositionInfo = some ⟨r.key, v⟩) := by
  constructor
  · intro s hs
    unfold Editor.valueChangeHandler at hs
    cases hC : st.isCollapsed <;> rw [hC] at hs <;>
      simp [Editor.changeDeleteContents, h] at hs
    all_goals exact emitCompositionUpdate_insertText_empty _ v s hs
  · intro r hr
    unfold Editor.valueChangeHandler
    cases hC : st.isCollapsed <;>
      simp [Editor.changeDeleteContents, h, hC]
    all_goals exact emitCompositionUpdate_compositionInfo _ v r hr

/-- Witness for `c6_amended` at the composing state `stC6`. -/
theorem c6_amended_witness :
    stC6.isComposition = true ∧
    (∀ s, Ev.insertText s ∈ (Editor.valueChangeHandler stC6 ['x']).2 → s = []) ∧
    (∀ r, stC6.range = some r →
      (Editor.valueChangeHandler stC6 ['x']).1.compositionInfo = some ⟨r.key, ['x']⟩) :=
  ⟨rfl, (c6_amended stC6 ['x'] rfl).1, (c6_amended stC6 ['x'] rfl).2⟩

/-! ## C7 — cache and replay of composition segmentations -/

/-- Claim C7: a composition update emitted while no subscriber is registered
for the composing key caches the computed segmentation and delivers nothing;
the first subsequent `onCompositionUpdate` for that key invokes the new
callback with the cached segmentation before registering it. A composition
update emitted while a subscriber is registered delivers the segmentation
directly and removes the cache entry for that key. -/
theorem c7_cache_and_replay (st : EditorState) (t : List Char)
    (k k2 : Key) (o : Nat) (s : List Char)
    (hr : st.range = some ⟨k, o⟩)
    (hn : st.model.get k = some (.text k2 s))
    (hnodup : st.cacheCompositionUpdate.NodupKeys) :
    (st.compositionUpdateMap.get k = none →
      ∃ params,
        (Editor.emitCompositionUpdate st t).1.cacheCompositionUpdate.get k =
          some params ∧
        (∀ cb p, Ev.notifyComposition cb p ∉ (Editor.emitCompositionUpdate st t).2) ∧
        ∀ cb,
          (Editor.onCompositionUpdate (Editor.emitCompositionUpdate st t).1 k cb).2 =
            [Ev.notifyComposition cb (some params), Ev.registerComposition k cb] ∧
          (Editor.onCompositionUpdate
              (Editor.emitCompositionUpdate st t).1 k cb).1.compositionUpdateMap.get k =
            some cb) ∧
    (∀ cb, st.compositionUpdateMap.get k = some cb →
      (∃ params,
        Ev.notifyComposition cb (some params) ∈ (Editor.emitCompositionUpdate st t).2) ∧
      (Editor.emitCompositionUpdate st t).1.cacheCompositionUpdate.get k = none) := by
  constructor
  · intro hnone
    have hcache :
        (Editor.emitCompositionUpdate st t).1.cacheCompositionUpdate.get k =
          some ⟨{ type := "text", text := s.take o } ::
                { type := "composition", text := t } ::
                (if o < s.length then [{ type := "text", text := s.drop o }] else []),
                t, o⟩ := by
      cases hF : st.hasCacheFormatting
      · simp [Editor.emitCompositionUpdate, hF, hr, hn, hnone]
      · simp [Editor.emitCompositionUpdate, Editor.changeInsertText, hF, hr, hn,
          hnone, List.take_append_drop]
    refine ⟨_, hcache, ?_, ?_⟩
    · intro cb p
      cases hF : st.hasCacheFormatting <;>
        simp [Editor.emitCompositionUpdate, Editor.changeInsertText, hF, hr, hn, hnone]
    · intro cb
      constructor
      · unfold Editor.onCompositionUpdate
        simp [hcache]
      · unfold Editor.onCompositionUpdate
        simp
  · intro cb hcb
    constructor
    · refine ⟨⟨{ type := "text", text := s.take o } ::
          { type := "composition", text := t } ::
          (if o < s.length then [{ type := "text", text := s.drop o }] else []),
          t, o⟩, ?_⟩
      cases hF : st.hasCacheFormatting <;>
        simp [Editor.emitCompositionUpdate, Editor.changeInsertText, hF, hr, hn,
          hcb, List.take_append_drop]
    · cases hF : st.hasCacheFormatting <;>
        simp [Editor.emitCompositionUpdate, Editor.changeInsertText, hF, hr, hn,
          hcb, List.take_append_drop, JMap.get_delete_self _ k hnodup]

/-- Witness for `c7_cache_and_replay`: `sampleState` has no subscriber for
`t1`, so emitting a composition update caches the segmentation and a
subsequent `onCompositionUpdate` replays it before registering. -/
theorem c7_cache_and_replay_witness :
    sampleState.compositionUpdateMap.get "t1" = none ∧
    ∃ params,
      (Editor.emitCompositionUpdate sampleState ['é']).1.cacheCompositionUpdate.get "t1" =
        some params ∧
      (∀ cb p, Ev.notifyComposition cb p ∉ (Editor.emitCompositionUpdate sampleState ['é']).2) ∧
      ∀ cb,
        (Editor.onCompositionUpdate
            (Editor.emitCompositionUpdate sampleState ['é']).1 "t1" cb).2 =
          [Ev.notifyComposition cb (some params), Ev.registerComposition "t1" cb] ∧
        (Editor.onCompositionUpdate
            (Editor.emitCompositionUpdate sampleState ['é']).1 "t1" cb).1.compositionUpdateMap.get "t1" =
          some cb :=
  ⟨rfl,
   (c7_cache_and_replay sampleState ['é'] "t1" "t1" 3 ['c', 'a', 'f', 'e']
     rfl rfl (by simp [JMap.NodupKeys, sampleState, JMap.empty])).1 rfl⟩

/-! ## C8 — update fan-out -/

mutual

/-- All nodes of the subtree rooted at a node (the node itself included). -/
def Node.subtree : Node → List Node
  | Node.element k ty children => Node.element k ty children :: Node.subtreeList children
  | Node.text k s => [Node.text k s]

/-- All nodes of the subtrees rooted at a list of nodes. -/
def Node.subtreeList : List Node → List Node
  | [] => []
  | c :: rest => Node.subtree c ++ Node.subtreeList rest

end

/-- A keyed or wildcard notification produced by `emitUpdateOwn` always
delivers the visited node together with the very ops list passed in. -/
theorem emitUpdateOwn_notify_mem (um : JMap Key Nat) (ci : Option CompInfo)
    (node : Node) (ops : List Op) (cb : Nat) (d : Node) (ops' : List Op)
    (h : Ev.notifyUpdate cb d ops' ∈ Editor.emitUpdateOwn um ci node ops) :
    d = node ∧ ops' = ops := by
  unfold Editor.emitUpdateOwn at h
  simp only [List.mem_append] at h
  rcases h with (h | h) | h
  · cases hk : um.get node.getKey <;> rw [hk] at h <;> simp_all
  · cases hs : um.get "*" <;> rw [hs] at h <;> simp_all
  · exfalso
    cases ci with
    | none => simp_all
    | some info => by_cases hk : info.key = node.getKey <;> simp_all

/-- With a wildcard callback registered, `emitUpdateOwn` emits its
notification for the visited node with the passed ops list. -/
theorem emitUpdateOwn_wildcard_mem (um : JMap Key Nat) (ci : Option CompInfo)
    (node : Node) (ops : List Op) (cbw : Nat) (hw : um.get "*" = some cbw) :
    Ev.notifyUpdate cbw node ops ∈ Editor.emitUpdateOwn um ci node ops := by
  unfold Editor.emitUpdateOwn
  simp [hw]

mutual

/-- Payload of the notifications of `emitUpdate`: the notified node itself
receives the ops list as passed; every other delivered node receives only
Operations whose key equals that node's key. -/
theorem emitUpdate_payload : ∀ (um : JMap Key Nat) (ci : Option CompInfo)
    (node : Node) (ops : List Op) (cb : Nat) (d : Node) (ops' : List Op),
    Ev.notifyUpdate cb d ops' ∈ Editor.emitUpdate um ci node ops →
    (d = node ∧ ops' = ops) ∨ (∀ op ∈ ops', op.key = d.getKey)
  | um, ci, Node.element k ty children, ops, cb, d, ops', h => by
    rw [Editor.emitUpdate] at h
    rcases List.mem_append.mp h with h1 | h2
    · exact Or.inr (emitUpdateList_payload um ci children ops cb d ops' h1)
    · exact Or.inl (emitUpdateOwn_notify_mem um ci _ ops cb d ops' h2)
  | um, ci, Node.text k s, ops, cb, d, ops', h => by
    rw [Editor.emitUpdate] at h
    exact Or.inl (emitUpdateOwn_notify_mem um ci _ ops cb d ops' h)

/-- Payload of the notifications of the `children.forEach` loop: every
delivered node receives only Operations whose key equals its own key. -/
theorem emitUpdateList_payload : ∀ (um : JMap Key Nat) (ci : Option CompInfo)
    (cs : List Node) (ops : List Op) (cb : Nat) (d : Node) (ops' : List Op),
    Ev.notifyUpdate cb d ops' ∈ Editor.emitUpdateList um ci cs ops →
    ∀ op ∈ ops', op.key = d.getKey
  | um, ci, [], ops, cb, d, ops', h => by
    rw [Editor.emitUpdateList] at h
    simp at h
  | um, ci, c :: rest, ops, cb, d, ops', h => by
    rw [Editor.emitUpdateList] at h
    rcases List.mem_append.mp h with h1 | h2
    · rcases emitUpdate_payload um ci c _ cb d ops' h1 with ⟨hd, hops⟩ | hall
      · subst hd
        intro op hop
        rw [hops] at hop
        have hf := List.mem_filter.mp hop
        simpa using hf.2
      · exact hall
    · exact emitUpdateList_payload um ci rest ops cb d ops' h2

end

mutual

/-- With a wildcard callback registered, `emitUpdate` delivers a
notification for every node of the notified subtree. -/
theorem emitUpdate_visits : ∀ (um : JMap Key Nat) (cbw : Nat)
    (hw : um.get "*" = some cbw) (ci : Option CompInfo)
    (node : Node) (ops : List Op) (d : Node), d ∈ node.subtree →
    ∃ ops', Ev.notifyUpdate cbw d ops' ∈ Editor.emitUpdate um ci node ops
  | um, cbw, hw, ci, Node.element k ty children, ops, d, hd => by
    rw [Node.subtree] at hd
    rw [Editor.emitUpdate]
    rcases List.mem_cons.mp hd with h1 | h2
    · subst h1
      exact ⟨ops, List.mem_append_right _
        (emitUpdateOwn_wildcard_mem um ci _ ops cbw hw)⟩
    · obtain ⟨ops', hmem⟩ := emitUpdateList_visits um cbw hw ci children ops d h2
      exact ⟨ops', List.mem_append_left _ hmem⟩
  | um, cbw, hw, ci, Node.text k s, ops, d, hd => by
    rw [Node.subtree] at hd
    rw [List.mem_singleton] at hd
    subst hd
    rw [Editor.emitUpdate]
    exact ⟨ops, emitUpdateOwn_wildcard_mem um ci _ ops cbw hw⟩

/-- With a wildcard callback registered, the `children.forEach` loop
delivers a notification for every node of every child subtree. -/
theorem emitUpdateList_visits : ∀ (um : JMap Key Nat) (cbw : Nat)
    (hw : um.get "*" = some cbw) (ci : Option CompInfo)
    (cs : List Node) (ops : List Op) (d : Node), d ∈ Node.subtreeList cs →
    ∃ ops', Ev.notifyUpdate cbw d ops' ∈ Editor.emitUpdateList um ci cs ops
  | um, cbw, hw, ci, [], ops, d, hd => by
    rw [Node.subtreeList] at hd
    simp at hd
  | um, cbw, hw, ci, c :: rest, ops, d, hd => by
    rw [Node.subtreeList] at hd
    rw [Editor.emitUpdateList]
    rcases List.mem_append.mp hd with h1 | h2
    · obtain ⟨ops', hmem⟩ := emitUpdate_visits um cbw hw ci c
        (ops.filter (fun op => op.key == c.getKey)) d h1
      exact ⟨ops', List.mem_append_left _ hmem⟩
    · obtain ⟨ops', hmem⟩ := emitUpdateList_visits um cbw hw ci rest ops d h2
      exact ⟨ops', List.mem_append_right _ hmem⟩

end

/-- The last entry of a list ending in an explicit singleton. -/
theorem getLast?_append_singleton {α : Type} (xs : List α) (a : α) :
    (xs ++ [a]).getLast? = some a := by
  rw [List.getLast?_append_cons]
  rfl

/-- With no composition in flight and a wildcard callback registered, the
last event of `emitUpdate`'s trace is the notification for the notified node
itself: every descendant's notification precedes it. -/
theorem emitUpdate_getLast (um : JMap Key Nat) (cbw : Nat) (node : Node)
    (ops : List Op) (hw : um.get "*" = some cbw) :
    (Editor.emitUpdate um none node ops).getLast? =
      some (Ev.notifyUpdate cbw node ops) := by
  cases node with
  | element k ty children =>
    simp only [Editor.emitUpdate]
    unfold Editor.emitUpdateOwn
    simp only [hw, List.append_nil, ← List.append_assoc]
    rw [getLast?_append_singleton]
  | text k s =>
    simp only [Editor.emitUpdate]
    unfold Editor.emitUpdateOwn
    simp only [hw, List.append_nil]
    rw [getLast?_append_singleton]

/-- The Operation targeting the Text child `t`. -/
def opT : Op := ⟨"t", 0⟩

/-- A Text node with key `t`. -/
def nodeT : Node := Node.text "t" ['x']

/-- An Element with key `e` holding the Text child `t`. -/
def nodeE : Node := Node.element "e" "paragraph" [nodeT]

/-- An update-callback map with keyed callbacks for `e` (id 1) and `t`
(id 2). -/
def umC8 : JMap Key Nat := (JMap.empty.set "e" 1).set "t" 2

/-- An update-callback map with keyed callbacks for `e` and `t` plus the
wildcard callback (id 9). -/
def umC8w : JMap Key Nat := ((JMap.empty.set "e" 1).set "t" 2).set "*" 9

/-- Claim C8, as stated, is false: the notified node itself is invoked with
the FULL ops list, not only the Operations whose key matches it. Concretely,
notifying element `e` with the single op targeting its Text child `t`
delivers that op to `e`'s callback as well (the trace is the child's
notification followed by `e`'s notification, both carrying the `t`-keyed
op), so not every delivered ops list matches the delivered node's key. -/
theorem c8_counterexample :
    (Editor.emitUpdate umC8 none nodeE [opT]) =
      [Ev.notifyUpdate 2 nodeT [opT], Ev.notifyUpdate 1 nodeE [opT]] ∧
    ((Editor.emitUpdate umC8 none nodeE [opT]).all Ev.updateOpsMatchNode) = false := by
  constructor
  · simp [Editor.emitUpdate, Editor.emitUpdateList, Editor.emitUpdateOwn,
      umC8, nodeE, nodeT, opT, JMap.get, JMap.set, JMap.empty, setEntries,
      lookupEntries, Node.getKey]
  · simp [Editor.emitUpdate, Editor.emitUpdateList, Editor.emitUpdateOwn,
      umC8, nodeE, nodeT, opT, JMap.get, JMap.set, JMap.empty, setEntries,
      lookupEntries, Node.getKey, Ev.updateOpsMatchNode]

/-- Claim C8 (amended): the fan-out of `emitUpdate` visits every node of
the notified subtree (with the wildcard callback invoked at each visited
node); the notified node's own callbacks receive the full ops list as
passed, while every other visited node's callbacks receive only Operations
whose key matches that node (each child is handed its parent's list
filtered by its own key); and descendants are notified before the node
itself — the node's own notification is the last event of the trace. -/
theorem c8_fanout (um : JMap Key Nat) (ci : Option CompInfo) (node : Node)
    (ops : List Op) (cbw : Nat)
    (hci : ci = none) (hw : um.get "*" = some cbw) :
    (∀ d, d ∈ node.subtree →
      ∃ ops', Ev.notifyUpdate cbw d ops' ∈ Editor.emitUpdate um ci node ops) ∧
    (∀ cb d ops', Ev.notifyUpdate cb d ops' ∈ Editor.emitUpdate um ci node ops →
      (d = node ∧ ops' = ops) ∨ (∀ op ∈ ops', op.key = d.getKey)) ∧
    (Editor.emitUpdate um ci node ops).getLast? =
      some (Ev.notifyUpdate cbw node ops) := by
  subst hci
  exact ⟨fun d hd => emitUpdate_visits um cbw hw none node ops d hd,
         fun cb d ops' h => emitUpdate_payload um none node ops cb d ops' h,
         emitUpdate_getLast um cbw node ops hw⟩

/-- Witness for `c8_fanout` at the concrete two-node tree and `t`-keyed op
with the wildcard callback registered. -/
theorem c8_fanout_witness :
    umC8w.get "*" = some 9 ∧
    (∀ d, d ∈ nodeE.subtree →
      ∃ ops', Ev.notifyUpdate 9 d ops' ∈ Editor.emitUpdate umC8w none nodeE [opT]) ∧
    (∀ cb d ops', Ev.notifyUpdate cb d ops' ∈ Editor.emitUpdate umC8w none nodeE [opT] →
      (d = nodeE ∧ ops' = [opT]) ∨ (∀ op ∈ ops', op.key = d.getKey)) ∧
    (Editor.emitUpdate umC8w none nodeE [opT]).getLast? =
      some (Ev.notifyUpdate 9 nodeE [opT]) :=
  ⟨rfl, c8_fanout umC8w none nodeE [opT] 9 rfl rfl⟩

/-! ## C9 — one callback per key -/

/-- Claim C9: for every key at most one update callback and at most one
composition-update callback are registered at any time — a second
`onUpdate` (resp. `onCompositionUpdate`) under the same key replaces the
previous callback (the map still holds exactly one entry for the key), and
one `offUpdate` (resp. `offCompositionUpdate`) removes the registration
entirely. -/
theorem c9_single_registration (st : EditorState) (k : Key) (cb1 cb2 d1 d2 : Nat)
    (hu : st.updateMap.NodupKeys) (hc : st.compositionUpdateMap.NodupKeys) :
    ((Editor.onUpdate (Editor.onUpdate st k cb1) k cb2).updateMap.get k = some cb2) ∧
    ((Editor.onUpdate (Editor.onUpdate st k cb1) k cb2).updateMap.countKey k = 1) ∧
    ((Editor.offUpdate (Editor.onUpdate (Editor.onUpdate st k cb1) k cb2) k).updateMap.get k
      = none) ∧
    ((Editor.onCompositionUpdate
        (Editor.onCompositionUpdate st k d1).1 k d2).1.compositionUpdateMap.get k
      = some d2) ∧
    ((Editor.onCompositionUpdate
        (Editor.onCompositionUpdate st k d1).1 k d2).1.compositionUpdateMap.countKey k
      = 1) ∧
    ((Editor.offCompositionUpdate
        (Editor.onCompositionUpdate
          (Editor.onCompositionUpdate st k d1).1 k d2).1 k).compositionUpdateMap.get k
      = none) := by
  have hu1 := JMap.nodupKeys_set st.updateMap k cb1 hu
  have hu2 := JMap.nodupKeys_set _ k cb2 hu1
  have hc1 := JMap.nodupKeys_set st.compositionUpdateMap k d1 hc
  have hc2 := JMap.nodupKeys_set _ k d2 hc1
  refine ⟨?_, ?_, ?_, ?_, ?_, ?_⟩
  · simp [Editor.onUpdate]
  · exact JMap.countKey_set_self _ k cb2 hu1
  · exact JMap.get_delete_self _ k hu2
  · simp [Editor.onCompositionUpdate]
  · exact JMap.countKey_set_self _ k d2 hc1
  · exact JMap.get_delete_self _ k hc2

/-- Witness for `c9_single_registration` at the baseline state. -/
theorem c9_single_registration_witness :
    sampleState.updateMap.NodupKeys ∧
    sampleState.compositionUpdateMap.NodupKeys ∧
    ((Editor.onUpdate (Editor.onUpdate sampleState "t1" 1) "t1" 2).updateMap.get "t1"
      = some 2) ∧
    ((Editor.onUpdate (Editor.onUpdate sampleState "t1" 1) "t1" 2).updateMap.countKey "t1"
      = 1) ∧
    ((Editor.offUpdate
        (Editor.onUpdate (Editor.onUpdate sampleState "t1" 1) "t1" 2) "t1").updateMap.get "t1"
      = none) :=
  have hu : sampleState.updateMap.NodupKeys := by
    simp [JMap.NodupKeys, sampleState, JMap.empty]
  have hc : sampleState.compositionUpdateMap.NodupKeys := by
    simp [JMap.NodupKeys, sampleState, JMap.empty]
  have h := c9_single_registration sampleState "t1" 1 2 3 4 hu hc
  ⟨hu, hc, h.1, h.2.1, h.2.2.1⟩

end Editable
